import Mathlib

/-
  Verification of the ThreadPool of Tiffanlord/WebServer.

  Source of truth: the ThreadPool class included from src/code/main.cpp
  (threadpool.h): a fixed set of detached worker threads consuming a shared
  FIFO queue of tasks guarded by a mutex and a condition variable, with a
  closed flag set by the destructor.

  Shallow embedding: the concurrent behaviour of the pool is modelled as a
  labelled transition system.  Each worker thread is reduced to a program
  counter ranging over the control points of the lambda spawned in the
  constructor (lines 44-61 of main.cpp); the shared Pool structure becomes a
  record with the closed flag, the queue and the mutex; AddTask and the
  destructor, which hold the mutex only for a constant-size critical section,
  are modelled as single atomic steps enabled when the mutex is free.  Tasks
  carry no identity beyond queue order, so a task is represented by its
  submission index, and a ghost field records the dequeue history so that
  FIFO and exactly-once properties can be stated.  Condition-variable wakeups
  are over-approximated: a waiting worker may resume whenever the mutex is
  free (C++ permits spurious wakeups, so this adds only behaviours the real
  pool already has).  Constructor, destructor, AddTask and the exception
  behaviour of one loop iteration additionally get direct functional
  embeddings.
-/

namespace Threadpool

/-- Tasks have no identity beyond their submission order, so a task is
represented by its submission index. -/
abbrev TaskId := Nat

/-- Control state of one worker thread: the control points of the lambda
spawned in the ThreadPool constructor (main.cpp lines 44-61). -/
inductive WorkerPc where
  /-- Thread created, not yet past `std::unique_lock<std::mutex> locker(pool->mtx)`. -/
  | start
  /-- Holds the mutex, at the top of `while(true)` (line 47). -/
  | loopHead
  /-- Dequeued task `t`, executed `locker.unlock()`, now inside `task()`
      (line 53); this worker does not hold the mutex. -/
  | running (t : TaskId)
  /-- Returned from `task()`, at `locker.lock()` (line 54), waiting to
      reacquire the mutex. -/
  | relock
  /-- Blocked in `pool->cond.wait(locker)` (line 59); the wait released the
      mutex. -/
  | waiting
  /-- Executed `break` (line 57) and left the lambda; the destructor of
      `locker` released the mutex. -/
  | done
deriving DecidableEq, Repr

/-- The shared `Pool` structure (`mtx`, `cond`, `isClosed`, `tasks`) together
with the control state of every worker thread and a ghost dequeue history. -/
structure PoolState where
  /-- `Pool::isClosed`.  `std::make_shared<Pool>()` value-initialises the
      struct, so the flag starts out false. -/
  closed : Bool
  /-- `Pool::tasks`, front of the queue first. -/
  queue : List TaskId
  /-- Ghost: number of tasks ever handed to `AddTask`, which is also the id
      the next submitted task will receive. -/
  nextId : TaskId
  /-- Ghost: the tasks dequeued by workers so far, in dequeue order. -/
  popped : List TaskId
  /-- `Pool::mtx`: `some i` exactly when worker `i` holds the mutex.  The
      critical sections of `AddTask` and of the destructor are modelled as
      single atomic steps, so the owning thread never appears here. -/
  lock : Option Nat
  /-- One control state per worker thread spawned by the constructor. -/
  workers : List WorkerPc
deriving DecidableEq, Repr

/-- State of the pool right after `ThreadPool::ThreadPool(threadCount)`
returns: flag false, empty queue, mutex free, `threadCount` detached workers
about to contend for the mutex. -/
def initState (threadCount : Nat) : PoolState :=
  { closed := false
    queue := []
    nextId := 0
    popped := []
    lock := none
    workers := List.replicate threadCount .start }

/-- Names of the atomic actions of the pool: one per control transfer of the
worker lambda, plus `AddTask` and the destructor (shutdown). -/
inductive Label where
  | acquire (i : Nat)
  | pop (i : Nat)
  | finish (i : Nat)
  | reacquire (i : Nat)
  | exitw (i : Nat)
  | waitCv (i : Nat)
  | wake (i : Nat)
  | addTask
  | shutdown
deriving DecidableEq, Repr

/-- Interleaving semantics of the pool, one constructor per atomic action of
the code. -/
inductive Step : PoolState → Label → PoolState → Prop where
  /-- Line 45: `std::unique_lock<std::mutex> locker(pool->mtx)`.  The fresh
  thread blocks until the mutex is free, then holds it. -/
  | acquire (s : PoolState) (i : Nat) (h : i < s.workers.length)
      (hpc : s.workers.get ⟨i, h⟩ = .start) (hl : s.lock = none) :
      Step s (.acquire i)
        { s with workers := s.workers.set i .loopHead, lock := some i }
  /-- Lines 49-52: the queue is non-empty, so `front()`, `pop()`,
  `locker.unlock()`.  The dequeued task is appended to the ghost history. -/
  | pop (s : PoolState) (i : Nat) (h : i < s.workers.length)
      (t : TaskId) (ts : List TaskId)
      (hpc : s.workers.get ⟨i, h⟩ = .loopHead) (hl : s.lock = some i)
      (hq : s.queue = t :: ts) :
      Step s (.pop i)
        { s with workers := s.workers.set i (.running t), lock := none,
                 queue := ts, popped := s.popped ++ [t] }
  /-- Line 53: `task()` returns normally; the worker moves on to
  `locker.lock()`. -/
  | finish (s : PoolState) (i : Nat) (h : i < s.workers.length) (t : TaskId)
      (hpc : s.workers.get ⟨i, h⟩ = .running t) :
      Step s (.finish i) { s with workers := s.workers.set i .relock }
  /-- Line 54: `locker.lock()` reacquires the mutex once it is free. -/
  | reacquire (s : PoolState) (i : Nat) (h : i < s.workers.length)
      (hpc : s.workers.get ⟨i, h⟩ = .relock) (hl : s.lock = none) :
      Step s (.reacquire i)
        { s with workers := s.workers.set i .loopHead, lock := some i }
  /-- Line 57: queue empty and `isClosed` true: `break`.  Leaving the lambda
  destroys `locker`, releasing the mutex. -/
  | exitw (s : PoolState) (i : Nat) (h : i < s.workers.length)
      (hpc : s.workers.get ⟨i, h⟩ = .loopHead) (hl : s.lock = some i)
      (hq : s.queue = []) (hc : s.closed = true) :
      Step s (.exitw i) { s with workers := s.workers.set i .done, lock := none }
  /-- Line 59: queue empty, pool not closed: `pool->cond.wait(locker)`
  atomically releases the mutex and blocks. -/
  | waitCv (s : PoolState) (i : Nat) (h : i < s.workers.length)
      (hpc : s.workers.get ⟨i, h⟩ = .loopHead) (hl : s.lock = some i)
      (hq : s.queue = []) (hc : s.closed = false) :
      Step s (.waitCv i) { s with workers := s.workers.set i .waiting, lock := none }
  /-- Return from `cond.wait`: the worker was notified (`notify_one` in
  `AddTask`, `notify_all` in the destructor) or woke spuriously, and has
  reacquired the mutex.  Modelled by letting a waiting worker resume whenever
  the mutex is free, an over-approximation justified by spurious wakeups. -/
  | wake (s : PoolState) (i : Nat) (h : i < s.workers.length)
      (hpc : s.workers.get ⟨i, h⟩ = .waiting) (hl : s.lock = none) :
      Step s (.wake i)
        { s with workers := s.workers.set i .loopHead, lock := some i }
  /-- Method `AddTask` (lines 82-88): under `std::lock_guard`, `tasks.emplace(task)`;
  the critical section is one atomic step.  `AddTask` itself never reads
  `isClosed`; the guard `closed = false` encodes the lifecycle fact that
  `isClosed` is set only by the destructor of the owning handle, after which
  no call on the handle is possible, so no `AddTask` follows shutdown. -/
  | addTask (s : PoolState) (hl : s.lock = none) (hc : s.closed = false) :
      Step s .addTask
        { s with queue := s.queue ++ [s.nextId], nextId := s.nextId + 1 }
  /-- Destructor `~ThreadPool` (lines 70-78) on a non-null `pool_`: under
  `std::lock_guard`, `isClosed = true`; one atomic step.  The guard
  `closed = false` encodes that the destructor runs at most once. -/
  | shutdown (s : PoolState) (hl : s.lock = none) (hc : s.closed = false) :
      Step s .shutdown { s with closed := true }

/-- States reachable from a freshly constructed pool under any interleaving
of worker, `AddTask` and destructor actions. -/
inductive Reachable : PoolState → Prop where
  | init (threadCount : Nat) : Reachable (initState threadCount)
  | step {s : PoolState} {l : Label} {s' : PoolState} :
      Reachable s → Step s l s' → Reachable s'

/-- Mutex bookkeeping: worker `i` holds the mutex exactly when its program
counter sits at the top of the loop (the only control point of the lambda at
which the worker owns `pool->mtx`). -/
def lockInv (s : PoolState) : Prop :=
  (∀ i, ∀ h : i < s.workers.length,
      s.workers.get ⟨i, h⟩ = .loopHead → s.lock = some i) ∧
  (∀ i, s.lock = some i →
      ∃ h : i < s.workers.length, s.workers.get ⟨i, h⟩ = .loopHead)

/-- Bookkeeping of the queue: the tasks dequeued so far followed by the tasks
still queued are exactly the tasks submitted so far, in submission order. -/
def queueAccount (s : PoolState) : Prop :=
  s.popped ++ s.queue = List.range s.nextId

/-- A worker can only have left the loop after the destructor closed the
pool. -/
def doneClosed (s : PoolState) : Prop :=
  ∀ i, ∀ h : i < s.workers.length,
    s.workers.get ⟨i, h⟩ = .done → s.closed = true

/-- No task is being executed by two workers at once, and every task being
executed was dequeued (appears in the ghost history). -/
def runInv (s : PoolState) : Prop :=
  (∀ a b : Nat, ∀ ha : a < s.workers.length, ∀ hb : b < s.workers.length,
      ∀ t : TaskId, s.workers.get ⟨a, ha⟩ = .running t →
      s.workers.get ⟨b, hb⟩ = .running t → a = b) ∧
  (∀ a : Nat, ∀ ha : a < s.workers.length, ∀ t : TaskId,
      s.workers.get ⟨a, ha⟩ = .running t → t ∈ s.popped)

/-- Weight of a worker control point: an upper bound on the steps the worker
can still take once the pool is closed, not counting steps paid for by the
queue. -/
def pcWeight : WorkerPc → Nat
  | .start => 2
  | .loopHead => 1
  | .running _ => 3
  | .relock => 2
  | .waiting => 2
  | .done => 0

/-- Termination measure for the drain phase: once the pool is closed, every
enabled action strictly decreases it. -/
def poolMeasure (s : PoolState) : Nat :=
  3 * s.queue.length + (s.workers.map pcWeight).sum

/-- Number of workers blocked inside `cond.wait`. -/
def waitingCount (s : PoolState) : Nat :=
  s.workers.countP (fun pc => pc == WorkerPc.waiting)

/-- Semantics of `std::condition_variable::notify_one`: given how many
threads are blocked in `wait`, how many of them are unblocked. -/
def notifyOne (waiting : Nat) : Nat := min waiting 1

/-- Semantics of `std::condition_variable::notify_all`: every blocked thread
is unblocked. -/
def notifyAll (waiting : Nat) : Nat := waiting

/-- Body of `ThreadPool::AddTask` (lines 82-88): under a `std::lock_guard`,
`pool_->tasks.emplace(task)`; after the guard is released,
`pool_->cond.notify_one()`.  Total in every argument: no code path of
`AddTask` inspects the queue size, rejects a task, or waits on the condition
variable.  Returns the new queue and the number of workers woken. -/
def addTaskRun (queue : List TaskId) (t : TaskId) (waiting : Nat) :
    List TaskId × Nat :=
  (queue ++ [t], notifyOne waiting)

/-- Default value of the `threadCount` parameter in the declaration
`explicit ThreadPool(size_t threadCount = 8)`. -/
def defaultThreadCount : Nat := 8

/-- Constructor `ThreadPool::ThreadPool(size_t threadCount)` (lines 39-63):
`assert(threadCount > 0)`, then spawn `threadCount` detached worker threads
sharing the freshly allocated Pool.  A failed assertion is modelled as
`none`. -/
def mkThreadPool (threadCount : Nat) : Option PoolState :=
  if 0 < threadCount then some (initState threadCount) else none

/-- Invoking the constructor without supplying `threadCount`: the default
argument 8 is used. -/
def mkThreadPoolDefault : Option PoolState := mkThreadPool defaultThreadCount

/-- Destructor `~ThreadPool` (lines 70-78) as a function of the `pool_`
pointer, where `none` models a null `shared_ptr` (left by the default
constructor `ThreadPool() = default` or by a move).  Guarded by
`if (static_cast<bool>(pool_))`: on null it does nothing; otherwise it sets
`isClosed` under a `std::lock_guard` and then calls `cond.notify_all()`.
Returns the pointed-to state afterwards and whether `notify_all` ran. -/
def dtorThreadPool : Option PoolState → Option PoolState × Bool
  | none => (none, false)
  | some p => (some { p with closed := true }, true)

/-- Result of invoking one task body: `task()` either returns or throws. -/
inductive TaskOutcome where
  | ok
  | thrown
deriving DecidableEq, Repr

/-- Fate of the worker thread after one pass through the non-empty-queue
branch of the loop. -/
inductive WorkerFate where
  | continues
  | terminatesProcess
deriving DecidableEq, Repr

/-- The non-empty-queue branch of the worker loop (lines 49-54): pop, then
`locker.unlock()`, then `task()`, then `locker.lock()`.  No try/catch appears
anywhere in the lambda, so an exception thrown by `task()` propagates out of
the thread start function, and C++ then calls `std::terminate`, ending the
whole process.  The Bool records whether this worker holds the mutex when the
branch ends: on a throw the mutex is free, because `locker.unlock()` ran
before `task()`. -/
def popBranch (o : TaskOutcome) : WorkerFate × Bool :=
  match o with
  | .ok => (.continues, true)
  | .thrown => (.terminatesProcess, false)

/-- Ownership state of the `std::shared_ptr<Pool>`: the member `pool_` of the
owning handle, plus one captured copy `[pool = pool_]` per worker thread
(line 44) — a reference-counted clone, not a back-pointer to the ThreadPool
object. -/
structure RcPool where
  /-- the `pool_` member of the ThreadPool object still exists -/
  handleAlive : Bool
  /-- number of worker lambdas whose captured copy still exists -/
  workerRefs : Nat
deriving DecidableEq, Repr

/-- Current use count of the shared Pool allocation. -/
def refCount (s : RcPool) : Nat :=
  (if s.handleAlive then 1 else 0) + s.workerRefs

/-- The shared_ptr control block destroys the Pool exactly when the use count
reaches zero. -/
def poolFreed (s : RcPool) : Prop := refCount s = 0

/-- Ownership right after the constructor: the handle plus one captured copy
per spawned worker. -/
def ctorRefs (threadCount : Nat) : RcPool :=
  { handleAlive := true, workerRefs := threadCount }

/-- The owning ThreadPool object is destroyed: its `pool_` releases one
reference. -/
def destroyHandle (s : RcPool) : RcPool := { s with handleAlive := false }

/-- A worker leaves its lambda: the captured copy releases one reference. -/
def workerRelease (s : RcPool) : RcPool :=
  { s with workerRefs := s.workerRefs - 1 }

/-- Concrete run used by the witnesses: one worker; submit one task, shut
down, then let the worker drain the queue and exit.  `cs0` is the freshly
constructed pool. -/
def cs0 : PoolState := initState 1

/-- After `AddTask`: the queue holds task 0. -/
def cs1 : PoolState :=
  { cs0 with queue := cs0.queue ++ [cs0.nextId], nextId := cs0.nextId + 1 }

/-- After the destructor: closed. -/
def cs2 : PoolState := { cs1 with closed := true }

/-- Worker 0 acquired the mutex. -/
def cs3 : PoolState :=
  { cs2 with workers := cs2.workers.set 0 .loopHead, lock := some 0 }

/-- Worker 0 dequeued task 0 and is executing it with the mutex released. -/
def cs4 : PoolState :=
  { cs3 with workers := cs3.workers.set 0 (.running 0), lock := none,
             queue := [], popped := cs3.popped ++ [0] }

/-- Task 0 returned. -/
def cs5 : PoolState := { cs4 with workers := cs4.workers.set 0 .relock }

/-- Worker 0 reacquired the mutex. -/
def cs6 : PoolState :=
  { cs5 with workers := cs5.workers.set 0 .loopHead, lock := some 0 }

/-- Worker 0 observed the empty queue and the closed flag and exited. -/
def cs7 : PoolState :=
  { cs6 with workers := cs6.workers.set 0 .done, lock := none }

/-- Alternative run with no shutdown: from `cs1`, worker 0 acquires the mutex
while the pool is still open. -/
def bs2 : PoolState :=
  { cs1 with workers := cs1.workers.set 0 .loopHead, lock := some 0 }

/-- Worker 0 dequeued task 0 and is busy executing it: no worker is idle. -/
def bs3 : PoolState :=
  { bs2 with workers := bs2.workers.set 0 (.running 0), lock := none,
             queue := [], popped := bs2.popped ++ [0] }

theorem get_set_elim {l : List WorkerPc} {i j : Nat} {a b : WorkerPc}
    (hj : j < (l.set i a).length) (hg : (l.set i a).get ⟨j, hj⟩ = b)
    (hne : a ≠ b) : ∃ h : j < l.length, l.get ⟨j, h⟩ = b := by
  have hj2 : j < l.length := by simpa using hj
  refine ⟨hj2, ?_⟩
  simp only [List.get_eq_getElem, List.getElem_set] at hg ⊢
  by_cases hij : i = j
  · subst hij; simp at hg; exact absurd hg hne
  · simpa [hij] using hg

theorem get_set_running {l : List WorkerPc} {i j : Nat} {a : WorkerPc}
    {t : TaskId} (hj : j < (l.set i a).length)
    (hg : (l.set i a).get ⟨j, hj⟩ = .running t)
    (ha : ∀ u : TaskId, a ≠ .running u) :
    ∃ h : j < l.length, l.get ⟨j, h⟩ = .running t ∧ i ≠ j := by
  have hj2 : j < l.length := by simpa using hj
  simp only [List.get_eq_getElem, List.getElem_set] at hg
  by_cases hij : i = j
  · rw [if_pos hij] at hg
    exact absurd hg (ha t)
  · rw [if_neg hij] at hg
    refine ⟨hj2, ?_, hij⟩
    simp only [List.get_eq_getElem]
    exact hg

theorem lockInv_init (n : Nat) : lockInv (initState n) := by
  constructor
  · intro i h hpc
    have : WorkerPc.start = WorkerPc.loopHead := by
      simpa [initState, List.get_eq_getElem, List.getElem_replicate] using hpc
    cases this
  · intro i hl
    simp [initState] at hl

theorem lockInv_step {s : PoolState} {l : Label} {s' : PoolState}
    (hstep : Step s l s') (hinv : lockInv s) : lockInv s' := by
  obtain ⟨fwd, bwd⟩ := hinv
  cases hstep with
  | acquire i h hpc hl =>
    constructor
    · intro j hj hpcj
      have hj2 : j < s.workers.length := by simpa using hj
      simp only [List.get_eq_getElem, List.getElem_set] at hpcj
      by_cases hij : i = j
      · subst hij; rfl
      · simp only [hij, if_false] at hpcj
        have := fwd j hj2 (by simpa [List.get_eq_getElem] using hpcj)
        rw [hl] at this; cases this
    · intro j hlj
      have hij : i = j := Option.some.inj hlj
      subst hij
      refine ⟨by simpa using h, ?_⟩
      simp [List.get_eq_getElem, List.getElem_set]
  | pop i h t ts hpc hl hq =>
    constructor
    · intro j hj hpcj
      have hj2 : j < s.workers.length := by simpa using hj
      simp only [List.get_eq_getElem, List.getElem_set] at hpcj
      by_cases hij : i = j
      · simp [hij] at hpcj
      · simp only [hij, if_false] at hpcj
        have := fwd j hj2 (by simpa [List.get_eq_getElem] using hpcj)
        rw [hl] at this
        exact absurd (Option.some.inj this) hij
    · intro j hlj
      cases hlj
  | finish i h t hpc =>
    constructor
    · intro j hj hpcj
      have hj2 : j < s.workers.length := by simpa using hj
      simp only [List.get_eq_getElem, List.getElem_set] at hpcj
      by_cases hij : i = j
      · simp [hij] at hpcj
      · simp only [hij, if_false] at hpcj
        exact fwd j hj2 (by simpa [List.get_eq_getElem] using hpcj)
    · intro j hlj
      obtain ⟨hj, hpcj⟩ := bwd j hlj
      have hij : i ≠ j := by
        intro e
        subst e
        have : WorkerPc.running t = WorkerPc.loopHead := hpc.symm.trans hpcj
        cases this
      refine ⟨by simpa using hj, ?_⟩
      have h2 : (s.workers.set i WorkerPc.relock).get ⟨j, by simpa using hj⟩ =
          s.workers.get ⟨j, hj⟩ := by
        simp [List.get_eq_getElem, List.getElem_set, hij]
      exact h2.trans hpcj
  | reacquire i h hpc hl =>
    constructor
    · intro j hj hpcj
      have hj2 : j < s.workers.length := by simpa using hj
      simp only [List.get_eq_getElem, List.getElem_set] at hpcj
      by_cases hij : i = j
      · subst hij; rfl
      · simp only [hij, if_false] at hpcj
        have := fwd j hj2 (by simpa [List.get_eq_getElem] using hpcj)
        rw [hl] at this; cases this
    · intro j hlj
      have hij : i = j := Option.some.inj hlj
      subst hij
      refine ⟨by simpa using h, ?_⟩
      simp [List.get_eq_getElem, List.getElem_set]
  | exitw i h hpc hl hq hc =>
    constructor
    · intro j hj hpcj
      have hj2 : j < s.workers.length := by simpa using hj
      simp only [List.get_eq_getElem, List.getElem_set] at hpcj
      by_cases hij : i = j
      · simp [hij] at hpcj
      · simp only [hij, if_false] at hpcj
        have := fwd j hj2 (by simpa [List.get_eq_getElem] using hpcj)
        rw [hl] at this
        exact absurd (Option.some.inj this) hij
    · intro j hlj
      cases hlj
  | waitCv i h hpc hl hq hc =>
    constructor
    · intro j hj hpcj
      have hj2 : j < s.workers.length := by simpa using hj
      simp only [List.get_eq_getElem, List.getElem_set] at hpcj
      by_cases hij : i = j
      · simp [hij] at hpcj
      · simp only [hij, if_false] at hpcj
        have := fwd j hj2 (by simpa [List.get_eq_getElem] using hpcj)
        rw [hl] at this
        exact absurd (Option.some.inj this) hij
    · intro j hlj
      cases hlj
  | wake i h hpc hl =>
    constructor
    · intro j hj hpcj
      have hj2 : j < s.workers.length := by simpa using hj
      simp only [List.get_eq_getElem, List.getElem_set] at hpcj
      by_cases hij : i = j
      · subst hij; rfl
      · simp only [hij, if_false] at hpcj
        have := fwd j hj2 (by simpa [List.get_eq_getElem] using hpcj)
        rw [hl] at this; cases this
    · intro j hlj
      have hij : i = j := Option.some.inj hlj
      subst hij
      refine ⟨by simpa using h, ?_⟩
      simp [List.get_eq_getElem, List.getElem_set]
  | addTask hl hc =>
    exact ⟨fwd, bwd⟩
  | shutdown hl hc =>
    exact ⟨fwd, bwd⟩

theorem lockInv_reachable {s : PoolState} (hr : Reachable s) : lockInv s := by
  induction hr with
  | init n => exact lockInv_init n
  | step _ hstep ih => exact lockInv_step hstep ih

theorem queueAccount_init (n : Nat) : queueAccount (initState n) := by
  simp [queueAccount, initState]

theorem queueAccount_step {s : PoolState} {l : Label} {s' : PoolState}
    (hstep : Step s l s') (hinv : queueAccount s) : queueAccount s' := by
  cases hstep with
  | pop i h t ts hpc hl hq =>
    show (s.popped ++ [t]) ++ ts = List.range s.nextId
    rw [List.append_assoc, List.singleton_append, ← hq]
    exact hinv
  | addTask hl hc =>
    show s.popped ++ (s.queue ++ [s.nextId]) = List.range (s.nextId + 1)
    rw [← List.append_assoc, hinv]
    exact (List.range_succ (n := s.nextId)).symm
  | acquire i h hpc hl => exact hinv
  | finish i h t hpc => exact hinv
  | reacquire i h hpc hl => exact hinv
  | exitw i h hpc hl hq hc => exact hinv
  | waitCv i h hpc hl hq hc => exact hinv
  | wake i h hpc hl => exact hinv
  | shutdown hl hc => exact hinv

theorem queueAccount_reachable {s : PoolState} (hr : Reachable s) :
    queueAccount s := by
  induction hr with
  | init n => exact queueAccount_init n
  | step _ hstep ih => exact queueAccount_step hstep ih

theorem doneClosed_init (n : Nat) : doneClosed (initState n) := by
  intro i h hd
  have : WorkerPc.start = WorkerPc.done := by
    simpa [initState, List.get_eq_getElem, List.getElem_replicate] using hd
  cases this

theorem doneClosed_step {s : PoolState} {l : Label} {s' : PoolState}
    (hstep : Step s l s') (hinv : doneClosed s) : doneClosed s' := by
  cases hstep with
  | acquire i h hpc hl =>
    intro j hj hd
    obtain ⟨hj2, hd2⟩ := get_set_elim hj hd (by simp)
    exact hinv j hj2 hd2
  | pop i h t ts hpc hl hq =>
    intro j hj hd
    obtain ⟨hj2, hd2⟩ := get_set_elim hj hd (by simp)
    exact hinv j hj2 hd2
  | finish i h t hpc =>
    intro j hj hd
    obtain ⟨hj2, hd2⟩ := get_set_elim hj hd (by simp)
    exact hinv j hj2 hd2
  | reacquire i h hpc hl =>
    intro j hj hd
    obtain ⟨hj2, hd2⟩ := get_set_elim hj hd (by simp)
    exact hinv j hj2 hd2
  | exitw i h hpc hl hq hc =>
    intro j hj hd
    exact hc
  | waitCv i h hpc hl hq hc =>
    intro j hj hd
    obtain ⟨hj2, hd2⟩ := get_set_elim hj hd (by simp)
    exact hinv j hj2 hd2
  | wake i h hpc hl =>
    intro j hj hd
    obtain ⟨hj2, hd2⟩ := get_set_elim hj hd (by simp)
    exact hinv j hj2 hd2
  | addTask hl hc => exact hinv
  | shutdown hl hc =>
    intro j hj hd
    rfl

theorem doneClosed_reachable {s : PoolState} (hr : Reachable s) :
    doneClosed s := by
  induction hr with
  | init n => exact doneClosed_init n
  | step _ hstep ih => exact doneClosed_step hstep ih

theorem runInv_init (n : Nat) : runInv (initState n) := by
  constructor
  · intro a b ha hb t hga hgb
    have : WorkerPc.start = WorkerPc.running t := by
      simpa [initState, List.get_eq_getElem, List.getElem_replicate] using hga
    cases this
  · intro a ha t hga
    have : WorkerPc.start = WorkerPc.running t := by
      simpa [initState, List.get_eq_getElem, List.getElem_replicate] using hga
    cases this

theorem runInv_step {s : PoolState} {l : Label} {s' : PoolState}
    (hstep : Step s l s') (hacc : queueAccount s) (hinv : runInv s) :
    runInv s' := by
  obtain ⟨huniq, hmem⟩ := hinv
  cases hstep with
  | acquire i h hpc hl =>
    constructor
    · intro a b ha hb t hga hgb
      obtain ⟨ha2, hga2, _⟩ := get_set_running ha hga (fun u e => nomatch e)
      obtain ⟨hb2, hgb2, _⟩ := get_set_running hb hgb (fun u e => nomatch e)
      exact huniq a b ha2 hb2 t hga2 hgb2
    · intro a ha t hga
      obtain ⟨ha2, hga2, _⟩ := get_set_running ha hga (fun u e => nomatch e)
      exact hmem a ha2 t hga2
  | pop i h t0 ts hpc hl hq =>
    have hnd : (s.popped ++ s.queue).Nodup := by
      rw [hacc]; exact List.nodup_range s.nextId
    have hdisj : ∀ u : TaskId, u ∈ s.popped → u ∈ s.queue → False :=
      fun u hu hq2 => (List.nodup_append.mp hnd).2.2 hu hq2
    have ht0q : t0 ∈ s.queue := by rw [hq]; exact List.mem_cons_self t0 ts
    constructor
    · intro a b ha hb t hga hgb
      have ha2 : a < s.workers.length := by simpa using ha
      have hb2 : b < s.workers.length := by simpa using hb
      simp only [List.get_eq_getElem, List.getElem_set] at hga hgb
      by_cases hia : i = a <;> by_cases hib : i = b
      · omega
      · rw [if_pos hia] at hga
        rw [if_neg hib] at hgb
        have ht : t0 = t := WorkerPc.running.inj hga
        subst ht
        have : t0 ∈ s.popped := by
          refine hmem b hb2 t0 ?_
          simp only [List.get_eq_getElem]
          exact hgb
        exact (hdisj t0 this ht0q).elim
      · rw [if_neg hia] at hga
        rw [if_pos hib] at hgb
        have ht : t0 = t := WorkerPc.running.inj hgb
        subst ht
        have : t0 ∈ s.popped := by
          refine hmem a ha2 t0 ?_
          simp only [List.get_eq_getElem]
          exact hga
        exact (hdisj t0 this ht0q).elim
      · rw [if_neg hia] at hga
        rw [if_neg hib] at hgb
        refine huniq a b ha2 hb2 t ?_ ?_
        · simp only [List.get_eq_getElem]; exact hga
        · simp only [List.get_eq_getElem]; exact hgb
    · intro a ha t hga
      have ha2 : a < s.workers.length := by simpa using ha
      simp only [List.get_eq_getElem, List.getElem_set] at hga
      by_cases hia : i = a
      · rw [if_pos hia] at hga
        have ht : t0 = t := WorkerPc.running.inj hga
        subst ht
        exact List.mem_append.mpr (Or.inr (by simp))
      · rw [if_neg hia] at hga
        refine List.mem_append.mpr (Or.inl (hmem a ha2 t ?_))
        simp only [List.get_eq_getElem]
        exact hga
  | finish i h t hpc =>
    constructor
    · intro a b ha hb u hga hgb
      obtain ⟨ha2, hga2, _⟩ := get_set_running ha hga (fun v e => nomatch e)
      obtain ⟨hb2, hgb2, _⟩ := get_set_running hb hgb (fun v e => nomatch e)
      exact huniq a b ha2 hb2 u hga2 hgb2
    · intro a ha u hga
      obtain ⟨ha2, hga2, _⟩ := get_set_running ha hga (fun v e => nomatch e)
      exact hmem a ha2 u hga2
  | reacquire i h hpc hl =>
    constructor
    · intro a b ha hb t hga hgb
      obtain ⟨ha2, hga2, _⟩ := get_set_running ha hga (fun u e => nomatch e)
      obtain ⟨hb2, hgb2, _⟩ := get_set_running hb hgb (fun u e => nomatch e)
      exact huniq a b ha2 hb2 t hga2 hgb2
    · intro a ha t hga
      obtain ⟨ha2, hga2, _⟩ := get_set_running ha hga (fun u e => nomatch e)
      exact hmem a ha2 t hga2
  | exitw i h hpc hl hq hc =>
    constructor
    · intro a b ha hb t hga hgb
      obtain ⟨ha2, hga2, _⟩ := get_set_running ha hga (fun u e => nomatch e)
      obtain ⟨hb2, hgb2, _⟩ := get_set_running hb hgb (fun u e => nomatch e)
      exact huniq a b ha2 hb2 t hga2 hgb2
    · intro a ha t hga
      obtain ⟨ha2, hga2, _⟩ := get_set_running ha hga (fun u e => nomatch e)
      exact hmem a ha2 t hga2
  | waitCv i h hpc hl hq hc =>
    constructor
    · intro a b ha hb t hga hgb
      obtain ⟨ha2, hga2, _⟩ := get_set_running ha hga (fun u e => nomatch e)
      obtain ⟨hb2, hgb2, _⟩ := get_set_running hb hgb (fun u e => nomatch e)
      exact huniq a b ha2 hb2 t hga2 hgb2
    · intro a ha t hga
      obtain ⟨ha2, hga2, _⟩ := get_set_running ha hga (fun u e => nomatch e)
      exact hmem a ha2 t hga2
  | wake i h hpc hl =>
    constructor
    · intro a b ha hb t hga hgb
      obtain ⟨ha2, hga2, _⟩ := get_set_running ha hga (fun u e => nomatch e)
      obtain ⟨hb2, hgb2, _⟩ := get_set_running hb hgb (fun u e => nomatch e)
      exact huniq a b ha2 hb2 t hga2 hgb2
    · intro a ha t hga
      obtain ⟨ha2, hga2, _⟩ := get_set_running ha hga (fun u e => nomatch e)
      exact hmem a ha2 t hga2
  | addTask hl hc =>
    exact ⟨huniq, hmem⟩
  | shutdown hl hc =>
    exact ⟨huniq, hmem⟩

theorem runInv_reachable {s : PoolState} (hr : Reachable s) : runInv s := by
  induction hr with
  | init n => exact runInv_init n
  | step hr0 hstep ih => exact runInv_step hstep (queueAccount_reachable hr0) ih

theorem sum_map_set (f : WorkerPc → Nat) (l : List WorkerPc) (i : Nat)
    (a : WorkerPc) (h : i < l.length) :
    ((l.set i a).map f).sum + f (l.get ⟨i, h⟩) = (l.map f).sum + f a := by
  induction l generalizing i with
  | nil => simp at h
  | cons x xs ih =>
    cases i with
    | zero =>
      simp [List.set]
      omega
    | succ n =>
      have hn : n < xs.length := by simpa using h
      have hrec := ih n hn
      simp only [List.set, List.map_cons, List.sum_cons, List.get_eq_getElem,
        List.getElem_cons_succ] at hrec ⊢
      omega

theorem poolMeasure_step_closed {s : PoolState} {l : Label} {s' : PoolState}
    (hc : s.closed = true) (hstep : Step s l s') :
    s'.closed = true ∧ poolMeasure s' < poolMeasure s := by
  cases hstep with
  | acquire i h hpc hl =>
    have hs := sum_map_set pcWeight s.workers i .loopHead h
    rw [hpc] at hs
    simp only [pcWeight] at hs
    refine ⟨hc, ?_⟩
    show 3 * s.queue.length + ((s.workers.set i WorkerPc.loopHead).map pcWeight).sum
        < 3 * s.queue.length + (s.workers.map pcWeight).sum
    omega
  | pop i h t ts hpc hl hq =>
    have hs := sum_map_set pcWeight s.workers i (.running t) h
    rw [hpc] at hs
    simp only [pcWeight] at hs
    refine ⟨hc, ?_⟩
    show 3 * ts.length + ((s.workers.set i (WorkerPc.running t)).map pcWeight).sum
        < 3 * s.queue.length + (s.workers.map pcWeight).sum
    rw [hq]
    simp only [List.length_cons]
    omega
  | finish i h t hpc =>
    have hs := sum_map_set pcWeight s.workers i .relock h
    rw [hpc] at hs
    simp only [pcWeight] at hs
    refine ⟨hc, ?_⟩
    show 3 * s.queue.length + ((s.workers.set i WorkerPc.relock).map pcWeight).sum
        < 3 * s.queue.length + (s.workers.map pcWeight).sum
    omega
  | reacquire i h hpc hl =>
    have hs := sum_map_set pcWeight s.workers i .loopHead h
    rw [hpc] at hs
    simp only [pcWeight] at hs
    refine ⟨hc, ?_⟩
    show 3 * s.queue.length + ((s.workers.set i WorkerPc.loopHead).map pcWeight).sum
        < 3 * s.queue.length + (s.workers.map pcWeight).sum
    omega
  | exitw i h hpc hl hq hc2 =>
    have hs := sum_map_set pcWeight s.workers i .done h
    rw [hpc] at hs
    simp only [pcWeight] at hs
    refine ⟨hc, ?_⟩
    show 3 * s.queue.length + ((s.workers.set i WorkerPc.done).map pcWeight).sum
        < 3 * s.queue.length + (s.workers.map pcWeight).sum
    omega
  | waitCv i h hpc hl hq hc2 =>
    rw [hc] at hc2
    cases hc2
  | wake i h hpc hl =>
    have hs := sum_map_set pcWeight s.workers i .loopHead h
    rw [hpc] at hs
    simp only [pcWeight] at hs
    refine ⟨hc, ?_⟩
    show 3 * s.queue.length + ((s.workers.set i WorkerPc.loopHead).map pcWeight).sum
        < 3 * s.queue.length + (s.workers.map pcWeight).sum
    omega
  | addTask hl hc2 =>
    rw [hc] at hc2
    cases hc2
  | shutdown hl hc2 =>
    rw [hc] at hc2
    cases hc2

theorem step_cs0_cs1 : Step cs0 .addTask cs1 := Step.addTask cs0 rfl rfl

theorem step_cs1_cs2 : Step cs1 .shutdown cs2 := Step.shutdown cs1 rfl rfl

theorem step_cs2_cs3 : Step cs2 (.acquire 0) cs3 :=
  Step.acquire cs2 0 (by decide) rfl rfl

theorem step_cs3_cs4 : Step cs3 (.pop 0) cs4 :=
  Step.pop cs3 0 (by decide) 0 [] rfl rfl rfl

theorem step_cs4_cs5 : Step cs4 (.finish 0) cs5 :=
  Step.finish cs4 0 (by decide) 0 rfl

theorem step_cs5_cs6 : Step cs5 (.reacquire 0) cs6 :=
  Step.reacquire cs5 0 (by decide) rfl rfl

theorem step_cs6_cs7 : Step cs6 (.exitw 0) cs7 :=
  Step.exitw cs6 0 (by decide) rfl rfl rfl rfl

theorem reach_cs1 : Reachable cs1 := .step (.init 1) step_cs0_cs1

theorem reach_cs2 : Reachable cs2 := .step reach_cs1 step_cs1_cs2

theorem reach_cs3 : Reachable cs3 := .step reach_cs2 step_cs2_cs3

theorem reach_cs4 : Reachable cs4 := .step reach_cs3 step_cs3_cs4

theorem reach_cs5 : Reachable cs5 := .step reach_cs4 step_cs4_cs5

theorem reach_cs6 : Reachable cs6 := .step reach_cs5 step_cs5_cs6

theorem step_cs1_bs2 : Step cs1 (.acquire 0) bs2 :=
  Step.acquire cs1 0 (by decide) rfl rfl

theorem step_bs2_bs3 : Step bs2 (.pop 0) bs3 :=
  Step.pop bs2 0 (by decide) 0 [] rfl rfl rfl

theorem reach_bs2 : Reachable bs2 := .step reach_cs1 step_cs1_bs2

theorem reach_bs3 : Reachable bs3 := .step reach_bs2 step_bs2_bs3

/-- C1: a worker thread exits its loop only in a state where the task queue
is empty and the closed flag is true; consequently, at the moment of any
exit, every task submitted via AddTask before shutdown — which is every task
ever submitted — has already been dequeued for execution by some worker. -/
theorem exit_only_when_drained_and_closed {s s' : PoolState} {i : Nat}
    (hr : Reachable s) (hstep : Step s (.exitw i) s') :
    s.queue = [] ∧ s.closed = true ∧ ∀ t : TaskId, t < s.nextId → t ∈ s.popped := by
  cases hstep with
  | exitw i2 h hpc hl hq hc =>
    refine ⟨hq, hc, ?_⟩
    intro t ht
    have hacc := queueAccount_reachable hr
    rw [queueAccount, hq, List.append_nil] at hacc
    rw [hacc]
    exact List.mem_range.mpr ht

theorem exit_only_when_drained_and_closed_witness :
    cs6.queue = [] ∧ cs6.closed = true ∧
      ∀ t : TaskId, t < cs6.nextId → t ∈ cs6.popped :=
  exit_only_when_drained_and_closed reach_cs6 step_cs6_cs7

/-- C2: in every reachable state the dequeue history followed by the current
queue is exactly the submission sequence, so tasks are removed from the
shared queue in exactly their submission (FIFO) order, each task is dequeued
at most once and none is lost or duplicated; moreover no task is being
executed by two workers at once, and every task being executed was
dequeued. -/
theorem tasks_fifo_exactly_once {s : PoolState} (hr : Reachable s) :
    s.popped ++ s.queue = List.range s.nextId ∧
    s.popped.Nodup ∧
    s.popped = (List.range s.nextId).take s.popped.length ∧
    (∀ a b : Nat, ∀ ha : a < s.workers.length, ∀ hb : b < s.workers.length,
        ∀ t : TaskId, s.workers.get ⟨a, ha⟩ = .running t →
        s.workers.get ⟨b, hb⟩ = .running t → a = b) ∧
    (∀ a : Nat, ∀ ha : a < s.workers.length, ∀ t : TaskId,
        s.workers.get ⟨a, ha⟩ = .running t → t ∈ s.popped) := by
  have hacc := queueAccount_reachable hr
  have hrun := runInv_reachable hr
  have hnd : (s.popped ++ s.queue).Nodup := by
    rw [hacc]; exact List.nodup_range s.nextId
  refine ⟨hacc, hnd.of_append_left, ?_, hrun.1, hrun.2⟩
  rw [← hacc]
  exact (List.take_left s.popped s.queue).symm

theorem tasks_fifo_exactly_once_witness :
    cs4.popped ++ cs4.queue = List.range cs4.nextId ∧
    cs4.popped.Nodup ∧
    cs4.popped = (List.range cs4.nextId).take cs4.popped.length ∧
    (∀ a b : Nat, ∀ ha : a < cs4.workers.length, ∀ hb : b < cs4.workers.length,
        ∀ t : TaskId, cs4.workers.get ⟨a, ha⟩ = .running t →
        cs4.workers.get ⟨b, hb⟩ = .running t → a = b) ∧
    (∀ a : Nat, ∀ ha : a < cs4.workers.length, ∀ t : TaskId,
        cs4.workers.get ⟨a, ha⟩ = .running t → t ∈ cs4.popped) :=
  tasks_fifo_exactly_once reach_cs4

/-- C3: at the failing input — a submitted task whose body throws — the
worker loop, which wraps `task()` in no try/catch, lets the exception escape
the thread start function, so the process is terminated rather than the
failure being confined to the task; the pool mutex, however, is not left
locked, because `locker.unlock()` runs before `task()`. -/
theorem thrown_task_escapes_worker :
    popBranch .thrown = (.terminatesProcess, false) ∧
    popBranch .ok = (.continues, true) :=
  ⟨rfl, rfl⟩

/-- C4 counterexample: in the reachable state `bs3` the only worker is busy
executing a task, so no worker is blocked in `cond.wait`; the
`cond.notify_one()` performed by AddTask therefore wakes zero workers, not
exactly one, refuting the claim at this pool state. -/
theorem addTask_no_idle_wakes_none :
    Reachable bs3 ∧ waitingCount bs3 = 0 ∧
    (addTaskRun bs3.queue bs3.nextId (waitingCount bs3)).2 ≠ 1 :=
  ⟨reach_bs3, by decide, by decide⟩

/-- C4 (amended): for every task and every pool state, AddTask appends the
task to the back of the queue while holding the pool lock, never blocks the
caller on the condition variable or on queue capacity, and wakes at most one
idle worker via `cond.notify_one()` — exactly one whenever at least one
worker is waiting. -/
theorem addTask_appends_wakes_at_most_one :
    (∀ q : List TaskId, ∀ t : TaskId, ∀ w : Nat,
        (addTaskRun q t w).1 = q ++ [t] ∧ (addTaskRun q t w).2 ≤ 1) ∧
    (∀ w : Nat, 1 ≤ w → notifyOne w = 1) ∧
    (∀ s : PoolState, s.lock = none → s.closed = false →
        Step s .addTask
          { s with queue := s.queue ++ [s.nextId], nextId := s.nextId + 1 }) := by
  refine ⟨fun q t w => ⟨rfl, Nat.min_le_right w 1⟩,
          fun w hw => Nat.min_eq_right hw,
          fun s hl hc => Step.addTask s hl hc⟩

theorem addTask_appends_wakes_at_most_one_witness :
    notifyOne 2 = 1 ∧ Step cs0 .addTask cs1 :=
  ⟨addTask_appends_wakes_at_most_one.2.1 2 (by decide),
   addTask_appends_wakes_at_most_one.2.2 cs0 rfl rfl⟩

/-- C5: a task body is never executed while the pool mutex is held by the
executing worker: in every reachable state, a worker currently inside
`task()` does not own the mutex — the loop releases it before invoking the
task and reacquires it only after the task returns. -/
theorem task_runs_without_lock {s : PoolState} (hr : Reachable s)
    (i : Nat) (t : TaskId) (h : i < s.workers.length)
    (hpc : s.workers.get ⟨i, h⟩ = .running t) : s.lock ≠ some i := by
  intro hl
  obtain ⟨h2, hpc2⟩ := (lockInv_reachable hr).2 i hl
  have : WorkerPc.running t = WorkerPc.loopHead := hpc.symm.trans hpc2
  cases this

theorem task_runs_without_lock_witness : cs4.lock ≠ some 0 :=
  task_runs_without_lock reach_cs4 0 0 (by decide) (by decide)

/-- C6: the destructor sets the closed flag under the pool lock and calls
`notify_all`, which wakes every waiting worker; a worker enters a
condition-variable wait only while the flag is false, so once closed no new
wait can begin; and from any closed state every pool action strictly
decreases the drain measure while keeping the flag set, so the workers drain
the remaining tasks and exit rather than blocking indefinitely. -/
theorem shutdown_closes_wakes_all_and_drains :
    (∀ s : PoolState, s.lock = none → s.closed = false →
        Step s .shutdown { s with closed := true }) ∧
    (∀ p : PoolState,
        dtorThreadPool (some p) = (some { p with closed := true }, true)) ∧
    (∀ w : Nat, notifyAll w = w) ∧
    (∀ s s' : PoolState, ∀ i : Nat, Step s (.waitCv i) s' → s.closed = false) ∧
    (∀ s s' : PoolState, ∀ l : Label, s.closed = true → Step s l s' →
        s'.closed = true ∧ poolMeasure s' < poolMeasure s) := by
  refine ⟨fun s hl hc => Step.shutdown s hl hc, fun _ => rfl, fun w => rfl,
          ?_, ?_⟩
  · intro s s' i hstep
    cases hstep with
    | waitCv i2 h hpc hl hq hc => exact hc
  · intro s s' l hc hstep
    exact poolMeasure_step_closed hc hstep

theorem shutdown_closes_wakes_all_and_drains_witness :
    cs3.closed = true ∧ poolMeasure cs3 < poolMeasure cs2 :=
  shutdown_closes_wakes_all_and_drains.2.2.2.2 cs2 cs3 (.acquire 0) rfl
    step_cs2_cs3

/-- C7: the shared Pool state is reference counted; construction hands one
reference to the owning handle and one captured clone to each worker, so
after the handle is destroyed the state is still not freed as long as at
least one worker holds its clone — it is freed exactly when the last worker
reference is gone. -/
theorem pool_outlives_handle :
    (∀ n : Nat, refCount (ctorRefs n) = n + 1) ∧
    (∀ s : RcPool, 1 ≤ s.workerRefs → ¬ poolFreed (destroyHandle s)) ∧
    (∀ s : RcPool, poolFreed (destroyHandle s) ↔ s.workerRefs = 0) := by
  refine ⟨fun n => ?_, fun s hw => ?_, fun s => ?_⟩
  · show 1 + n = n + 1
    omega
  · intro hfreed
    have h0 : 0 + s.workerRefs = 0 := hfreed
    omega
  · constructor
    · intro hfreed
      have h0 : 0 + s.workerRefs = 0 := hfreed
      omega
    · intro h0
      show 0 + s.workerRefs = 0
      omega

theorem pool_outlives_handle_witness :
    ¬ poolFreed (destroyHandle (ctorRefs 3)) :=
  pool_outlives_handle.2.1 (ctorRefs 3) (by decide)

/-- C8: the constructor spawns exactly `threadCount` detached worker threads
and no later action of the pool creates or destroys a worker: every
transition preserves the number of workers (only their control states
change). -/
theorem worker_count_fixed :
    (∀ n : Nat, 0 < n → mkThreadPool n = some (initState n)) ∧
    (∀ n : Nat, (initState n).workers.length = n) ∧
    (∀ s s' : PoolState, ∀ l : Label, Step s l s' →
        s'.workers.length = s.workers.length) := by
  refine ⟨fun n hn => by simp [mkThreadPool, hn], fun n => by simp [initState],
          ?_⟩
  intro s s' l hstep
  cases hstep <;> simp

theorem worker_count_fixed_witness :
    mkThreadPool 1 = some (initState 1) ∧
    cs1.workers.length = cs0.workers.length :=
  ⟨worker_count_fixed.1 1 (by decide),
   worker_count_fixed.2.2 cs0 cs1 .addTask step_cs0_cs1⟩

/-- C9: the parameterized constructor asserts `threadCount > 0`: for every
`threadCount ≥ 1` the assertion holds and construction yields a pool, while
`threadCount = 0` violates the assertion; when the argument is not supplied
it defaults to 8. -/
theorem ctor_asserts_positive :
    (∀ n : Nat, 1 ≤ n → (mkThreadPool n).isSome = true) ∧
    mkThreadPool 0 = none ∧
    mkThreadPoolDefault = mkThreadPool 8 := by
  refine ⟨fun n hn => ?_, rfl, rfl⟩
  simp [mkThreadPool, Nat.lt_of_lt_of_le Nat.zero_lt_one hn]

theorem ctor_asserts_positive_witness : (mkThreadPool 8).isSome = true :=
  ctor_asserts_positive.1 8 (by decide)

/-- C10: destroying a ThreadPool whose `pool_` is null (default-constructed
or moved-from) performs no shutdown action and dereferences nothing, while on
a non-null `pool_` the destructor sets the closed flag and notifies all
workers. -/
theorem dtor_null_noop :
    dtorThreadPool none = (none, false) ∧
    (∀ p : PoolState,
        dtorThreadPool (some p) = (some { p with closed := true }, true)) :=
  ⟨rfl, fun _ => rfl⟩

end Threadpool
